import Mathlib

/-!
# Pipeline resolution (`internal/config/pipeline.go`)

A shallow embedding of the pipeline registry lookup (`Config.Pipeline`), of the
reference construction (`Pipeline.Ref`) and of the three step queries
(`Pipeline.Step`, `Pipeline.StepsUse`, `Pipeline.StepLabels`).

Go pointers that may be nil are `Option`; a Go result pair `(v, err)` is an
`Except Error v`; the one field the code assigns through a pointer (`c.ctx`)
is threaded as explicit state: `Config.Pipeline` returns the registry as it is
after the call.  Every call to a collaborator that the source makes
(`gohcl.DecodeBody`, `scopeMatchStage`, `labels`) is recorded, in order, in a
list of `Call`s that each operation returns next to its result.
-/

namespace Waypoint

/-! ## Data model -/

/-- HclBody stands for `hcl.Body`: an unevaluated block that only the external
decoder can read.  The string is a handle, never inspected by this file. -/
structure HclBody where
  src : String
deriving DecidableEq, Repr

/-- Value stands for the `cty.Value`s bound in an evaluation context: a string
or a string-to-string mapping is all that scope resolution consults. -/
inductive Value where
  | str (s : String)
  | map (m : List (String × String))
deriving DecidableEq, Repr

/-- EvalContext stands for `hcl.EvalContext`: variable bindings, function names
and a parent pointer, which is nil for `root` and set for `child`. -/
inductive EvalContext where
  | root (Variables : List (String × Value)) (Functions : List String)
  | child (Variables : List (String × Value)) (Functions : List String)
      (parent : EvalContext)
deriving DecidableEq, Repr

/-- Variables of the context node itself (field `Variables`). -/
def EvalContext.Variables : EvalContext → List (String × Value)
  | .root vs _ => vs
  | .child vs _ _ => vs

/-- Functions of the context node itself (field `Functions`). -/
def EvalContext.Functions : EvalContext → List String
  | .root _ fs => fs
  | .child _ fs _ => fs

/-- Error stands for a Go `error` value (an `hcl.Diagnostics` with errors is
one). -/
structure Error where
  msg : String
deriving DecidableEq, Repr

/-- Use is the `use` block of a stage; `Type_` is its Go field `Type`. -/
structure Use where
  Type_ : String
deriving DecidableEq, Repr

/-- Modelled from the spec: the Go type `scopedStage` is declared outside
`pipeline.go`.  Spec 3 describes each scoping rule as a pair of a workspace name
(or label selector) and an override body; the source reads `.Body` and
`.Use.Type` of the override that scope resolution returns. -/
structure scopedStage where
  Scope : String
  Use : Use
  Body : HclBody
deriving DecidableEq, Repr

/-- Modelled from the spec: the Go type `hclStage` is declared outside
`pipeline.go`.  Spec 3 (RawStep): a body, the two ordered scoping rule sets and
the `Use` reference of the unscoped level; these are the four fields the source
reads (`Body`, `WorkspaceScoped`, `LabelScoped`, `Use.Type`). -/
structure hclStage where
  Use : Use
  Body : HclBody
  WorkspaceScoped : List scopedStage
  LabelScoped : List scopedStage
deriving DecidableEq, Repr

/-- Modelled from the spec: the Go type `Step` is declared outside
`pipeline.go`.  Spec 3 (Step): typed fields resolved from one body, plus the
evaluation context used to resolve it (the field `ctx` that `Pipeline.Step`
assigns). -/
structure Step where
  fields : List (String × String)
  ctx : Option EvalContext
deriving DecidableEq, Repr

/-- The raw (shape) form of a pipeline, `hclPipeline` (lines 23-32). -/
structure hclPipeline where
  Id : String
  Name : String
  StepRaw : List hclStage
  Body : HclBody
  Remain : HclBody
deriving DecidableEq, Repr

/-- The decoded pipeline, `Pipeline` (lines 11-21).  `config` is the non-owning
back-pointer to the registry: `some ()` when it points at the registry the
pipeline was looked up in, `none` when it is nil. -/
structure Pipeline where
  Id : String
  Name : String
  StepRaw : List hclStage
  Body : HclBody
  ctx : Option EvalContext
  config : Option Unit
deriving DecidableEq, Repr

/-- The part of `hclConfig` that `pipeline.go` reads: the raw pipelines. -/
structure hclConfig where
  Pipelines : List hclPipeline
deriving DecidableEq, Repr

/-- The registry, `Config`: the parsed document and the stored base context. -/
structure Config where
  hclConfig : hclConfig
  ctx : Option EvalContext

/-- The reference value built by `Pipeline.Ref`: `Ref_Pipeline` wrapping
`Ref_Pipeline_Id` wrapping `Ref_PipelineId`, whose only content is `Id`. -/
structure Ref_PipelineId where
  Id : String
deriving DecidableEq, Repr

/-- One recorded call to a collaborator, with the arguments it was given. -/
inductive Call where
  | DecodeBody (body : HclBody) (ctx : Option EvalContext)
  | scopeMatchStage (ctx : Option EvalContext) (ws ls : List scopedStage)
  | labels (ctx : Option EvalContext) (body : HclBody)
deriving DecidableEq, Repr

/-- The collaborators whose code is outside `pipeline.go` and that the embedding
takes as parameters: the document decoder at its two target types
(`gohcl.DecodeBody` into a `Pipeline` and into a `Step`), and the helpers
`finalizeContext`, `scopeMatchStage` and `labels`, which `pipeline.go` calls
and does not define.  Every theorem about an operation of `pipeline.go` holds
for all of them. -/
structure Externals where
  decodePipeline : HclBody → Option EvalContext → Except Error Pipeline
  decodeStep : HclBody → Option EvalContext → Except Error Step
  finalizeContext : Option EvalContext → Option EvalContext
  scopeMatchStage : Option EvalContext → List scopedStage → List scopedStage →
    Except Error (Option scopedStage)
  labels : Option EvalContext → HclBody → Except Error (List (String × String))

/-- The three ingredients of scope resolution that spec 4.2 (step 1) and spec 6
leave to collaborators: the active workspace name and the active label set read
from a context, and the selector evaluator. -/
structure ScopeOracle where
  activeWorkspace : Option EvalContext → Except Error String
  activeLabels : Option EvalContext → Except Error (List (String × String))
  selectorMatches : String → List (String × String) → Bool

/-! ## Helpers declared outside `pipeline.go` -/

/-- Modelled from the spec: `appendContext` is declared outside `pipeline.go`.
Spec 4.1: `append(base, overlay)` returns a new context that resolves a name in
the overlay's own bindings first and then falls back to `base`; an absent
overlay returns `base` unchanged; the parent is never mutated. -/
def appendContext (parent child : Option EvalContext) : Option EvalContext :=
  match child with
  | none => parent
  | some ch =>
    match parent with
    | none => some (.root ch.Variables ch.Functions)
    | some p => some (.child ch.Variables ch.Functions p)

/-- The value bound to `name` in the `Variables` of the context node itself;
the parent chain is not consulted. -/
def EvalContext.ownVariable (name : String) (c : EvalContext) : Option Value :=
  (c.Variables.find? (fun kv => kv.1 == name)).map (fun kv => kv.2)

/-- First entry of a scoping rule set that satisfies `hit`, in declaration
order. -/
def firstScoped (hit : scopedStage → Bool) : List scopedStage → Option scopedStage
  | [] => none
  | s :: rest => if hit s then some s else firstScoped hit rest

/-- Modelled from the spec: `scopeMatchStage` is declared outside `pipeline.go`.
Spec 4.2: (1) read the active workspace and the active label set from the
context, failing when either cannot be evaluated; (2) the first workspace entry
whose name equals the active workspace is the workspace candidate; (3) the first
label entry whose selector is satisfied is the label candidate; (4) a workspace
candidate wins over a label candidate; (5) with no candidate the result is
none. -/
def scopeMatchStage (o : ScopeOracle) (ctx : Option EvalContext)
    (ws ls : List scopedStage) : Except Error (Option scopedStage) :=
  match o.activeWorkspace ctx with
  | .error err => .error err
  | .ok workspace =>
    match o.activeLabels ctx with
    | .error err => .error err
    | .ok active =>
      match firstScoped (fun s => s.Scope == workspace) ws with
      | some s => .ok (some s)
      | none => .ok (firstScoped (fun s => o.selectorMatches s.Scope active) ls)

/-- The collaborators `env`, with scope resolution done as spec 4.2 describes
it over the oracle `o`. -/
def Externals.withScope (env : Externals) (o : ScopeOracle) : Externals :=
  { env with scopeMatchStage := Waypoint.scopeMatchStage o }

/-! ## The operations of `pipeline.go` -/

/-- The scan of lines 50-56: the first raw pipeline whose `Id` equals `id`,
or nil. -/
def findRawPipeline (id : String) : List hclPipeline → Option hclPipeline
  | [] => none
  | p :: rest => if p.Id = id then some p else findRawPipeline id rest

/-- The method `Config.Pipelines` (lines 35-42): the ids in declaration order. -/
def Config.Pipelines (c : Config) : List String :=
  c.hclConfig.Pipelines.map (fun p => p.Id)

/-- The method `Config.Pipeline` (lines 46-75).  Returns the Go result pair,
the registry as it is after the call, and the collaborator calls made.  The
receiver `c` is a registry, not nil: line 47 reads `c.ctx` before anything
else. -/
def Config.Pipeline (env : Externals) (c : Config) (id : String)
    (ctx : Option EvalContext) :
    Except Error (Option Pipeline) × Config × List Call :=
  let ctx := appendContext c.ctx ctx
  match findRawPipeline id c.hclConfig.Pipelines with
  | none => (.ok none, c, [])
  | some rawPipeline =>
    let call := Call.DecodeBody rawPipeline.Body (env.finalizeContext ctx)
    match env.decodePipeline rawPipeline.Body (env.finalizeContext ctx) with
    | .error diag => (.error diag, c, [call])
    | .ok pipeline =>
      -- lines 66-69: the four assignments to the decoded value
      let pipeline : Waypoint.Pipeline := { pipeline with
        Id := rawPipeline.Id, Name := rawPipeline.Name, ctx := ctx, config := some () }
      -- lines 70-72: the assignment to the registry through `pipeline.config`
      let c : Config := if pipeline.config.isSome then { c with ctx := ctx } else c
      (.ok (some pipeline), c, [call])

/-- The method `Pipeline.Ref` (lines 78-86). -/
def Pipeline.Ref (c : Pipeline) : Ref_PipelineId :=
  { Id := c.Id }

/-- Lines 94 and 99-101: the body that is decoded for a raw step, the override's
when scope resolution returned one and the step's own otherwise. -/
def effectiveBody (scope : Option scopedStage) (stepRaw : hclStage) : HclBody :=
  match scope with
  | some sc => sc.Body
  | none => stepRaw.Body

/-- Lines 152 and 157-159: the `Use.Type` reported for a raw step, the
override's when scope resolution returned one and the step's own otherwise. -/
def effectiveUse (stage : Option scopedStage) (stepRaw : hclStage) : String :=
  match stage with
  | some st => st.Use.Type_
  | none => stepRaw.Use.Type_

/-- The loop of `Pipeline.Step` (lines 93-110) over the raw steps still to
visit; `steps` is the slice built so far. -/
def Pipeline.stepLoop (env : Externals) (ctx : Option EvalContext) :
    List hclStage → List Step → Except Error (List Step) × List Call
  | [], steps => (.ok steps, [])
  | stepRaw :: rest, steps =>
    let c1 := Call.scopeMatchStage ctx stepRaw.WorkspaceScoped stepRaw.LabelScoped
    match env.scopeMatchStage ctx stepRaw.WorkspaceScoped stepRaw.LabelScoped with
    | .error err => (.error err, [c1])
    | .ok scope =>
      let body := effectiveBody scope stepRaw
      let c2 := Call.DecodeBody body (env.finalizeContext ctx)
      match env.decodeStep body (env.finalizeContext ctx) with
      | .error diag => (.error diag, [c1, c2])
      | .ok s =>
        let r := Pipeline.stepLoop env ctx rest (steps ++ [{ s with ctx := ctx }])
        (r.1, c1 :: c2 :: r.2)

/-- The method `Pipeline.Step` (lines 89-113). -/
def Pipeline.Step (env : Externals) (c : Pipeline) (ctx : Option EvalContext) :
    Except Error (List Step) × List Call :=
  let ctx := appendContext c.ctx ctx
  Pipeline.stepLoop env ctx c.StepRaw []

/-- The loop of `Pipeline.StepsUse` (lines 151-161). -/
def Pipeline.stepsUseLoop (env : Externals) (ctx : Option EvalContext) :
    List hclStage → List String → Except Error (List String) × List Call
  | [], useTypes => (.ok useTypes, [])
  | stepRaw :: rest, useTypes =>
    let c1 := Call.scopeMatchStage ctx stepRaw.WorkspaceScoped stepRaw.LabelScoped
    match env.scopeMatchStage ctx stepRaw.WorkspaceScoped stepRaw.LabelScoped with
    | .error err => (.error err, [c1])
    | .ok stage =>
      let useType := effectiveUse stage stepRaw
      let r := Pipeline.stepsUseLoop env ctx rest (useTypes ++ [useType])
      (r.1, c1 :: r.2)

/-- The method `Pipeline.StepsUse` (lines 144-164).  The context handed to
`scopeMatchStage` is the argument `ctx` as the caller passed it: the method has
no `appendContext` line. -/
def Pipeline.StepsUse (env : Externals) (c : Pipeline) (ctx : Option EvalContext) :
    Except Error (List String) × List Call :=
  if c.StepRaw.length = 0 then (.ok [], [])
  else Pipeline.stepsUseLoop env ctx c.StepRaw []

/-- The loop of `Pipeline.StepLabels` (lines 184-191). -/
def Pipeline.stepLabelsLoop (env : Externals) (ctx : Option EvalContext) :
    List hclStage → List (List (String × String)) →
      Except Error (List (List (String × String))) × List Call
  | [], result => (.ok result, [])
  | stepRaw :: rest, result =>
    let c1 := Call.labels ctx stepRaw.Body
    match env.labels ctx stepRaw.Body with
    | .error err => (.error err, [c1])
    | .ok l =>
      let r := Pipeline.stepLabelsLoop env ctx rest (result ++ [l])
      (r.1, c1 :: r.2)

/-- The method `Pipeline.StepLabels` (lines 168-194). -/
def Pipeline.StepLabels (env : Externals) (c : Pipeline) (ctx : Option EvalContext) :
    Except Error (List (List (String × String))) × List Call :=
  if c.StepRaw.length = 0 then (.ok [], [])
  else
    let ctx := appendContext c.ctx ctx
    Pipeline.stepLabelsLoop env ctx c.StepRaw []

/-- The slice component of a Go result pair `(slice, err)`: the slice on
success, nil (no elements) when an error is returned. -/
def sliceOf {α : Type} : Except Error (List α) → List α
  | .ok xs => xs
  | .error _ => []

/-! ## One loop iteration, and the loops as a fold of iterations -/

/-- What one iteration of the loop of `Pipeline.Step` does with a raw step: its
outcome and the calls it makes. -/
def stepVisit (env : Externals) (ctx : Option EvalContext) (stepRaw : hclStage) :
    Except Error Step × List Call :=
  let c1 := Call.scopeMatchStage ctx stepRaw.WorkspaceScoped stepRaw.LabelScoped
  match env.scopeMatchStage ctx stepRaw.WorkspaceScoped stepRaw.LabelScoped with
  | .error err => (.error err, [c1])
  | .ok scope =>
    let c2 := Call.DecodeBody (effectiveBody scope stepRaw) (env.finalizeContext ctx)
    match env.decodeStep (effectiveBody scope stepRaw) (env.finalizeContext ctx) with
    | .error diag => (.error diag, [c1, c2])
    | .ok s => (.ok { s with ctx := ctx }, [c1, c2])

/-- What one iteration of the loop of `Pipeline.StepsUse` does with a raw
step. -/
def stepsUseVisit (env : Externals) (ctx : Option EvalContext) (stepRaw : hclStage) :
    Except Error String × List Call :=
  let c1 := Call.scopeMatchStage ctx stepRaw.WorkspaceScoped stepRaw.LabelScoped
  match env.scopeMatchStage ctx stepRaw.WorkspaceScoped stepRaw.LabelScoped with
  | .error err => (.error err, [c1])
  | .ok stage => (.ok (effectiveUse stage stepRaw), [c1])

/-- What one iteration of the loop of `Pipeline.StepLabels` does with a raw
step. -/
def stepLabelsVisit (env : Externals) (ctx : Option EvalContext) (stepRaw : hclStage) :
    Except Error (List (String × String)) × List Call :=
  (env.labels ctx stepRaw.Body, [Call.labels ctx stepRaw.Body])

/-- The shape the three loops share: visit the items in order, append each
outcome to the slice built so far, stop at the first error. -/
def visitAll {ι α : Type} (visit : ι → Except Error α × List Call) :
    List ι → List α → Except Error (List α) × List Call
  | [], acc => (.ok acc, [])
  | x :: rest, acc =>
    match (visit x).1 with
    | .error e => (.error e, (visit x).2)
    | .ok a =>
      ((visitAll visit rest (acc ++ [a])).1,
        (visit x).2 ++ (visitAll visit rest (acc ++ [a])).2)

/-! ## Sample collaborators for concrete evaluations -/

/-- Modelled from the spec: how the active workspace and the active label set
are read from a context is decided outside `pipeline.go`; spec 4.2 (step 1) says
only that both are supplied as context variables.  This instance reads the
variables `workspace` and `labels` bound on the context node itself.  A nil
context, or a node that does not bind the variable, gives the empty workspace
name and the empty label set, so that no rule of the sample documents matches
and scope resolution returns no override and no error.  The selector `k=v` is
satisfied when the active labels map `k` to `v`. -/
def sampleOracle : ScopeOracle where
  activeWorkspace := fun ctx =>
    match ctx with
    | none => .ok ""
    | some c =>
      match c.ownVariable "workspace" with
      | some (.str w) => .ok w
      | _ => .ok ""
  activeLabels := fun ctx =>
    match ctx with
    | none => .ok []
    | some c =>
      match c.ownVariable "labels" with
      | some (.map m) => .ok m
      | _ => .ok []
  selectorMatches := fun sel active => active.any (fun kv => kv.1 ++ "=" ++ kv.2 == sel)

/-- Sample collaborators: a body whose handle is `bad` fails to decode and to
yield labels, any other body decodes to a step whose `image` field is the
handle; a pipeline body decodes to a pipeline whose label reads `decoded`;
`finalizeContext` is the identity; scope resolution is spec 4.2 over
`sampleOracle`. -/
def sampleEnv : Externals where
  decodePipeline := fun body _ =>
    if body.src = "bad" then .error ⟨"decode pipeline"⟩
    else .ok { Id := "decoded", Name := "decoded", StepRaw := [], Body := body,
               ctx := none, config := none }
  decodeStep := fun body _ =>
    if body.src = "bad" then .error ⟨"decode step"⟩
    else .ok { fields := [("image", body.src)], ctx := none }
  finalizeContext := fun ctx => ctx
  scopeMatchStage := scopeMatchStage sampleOracle
  labels := fun _ body =>
    if body.src = "bad" then .error ⟨"labels"⟩ else .ok [("from", body.src)]

/-- The base context of the sample registry: workspace `prod`, labels
`env=prod`. -/
def baseCtx : EvalContext :=
  .root [("workspace", .str "prod"), ("labels", .map [("env", "prod")])] []

/-- A caller context that binds one variable of its own and nothing that scope
resolution reads. -/
def callerCtx : EvalContext :=
  .root [("artifact", .str "a1")] []

/-- A caller context that binds the workspace `staging` and the labels
`env=prod`. -/
def stagingCtx : EvalContext :=
  .root [("workspace", .str "staging"), ("labels", .map [("env", "prod")])] []

/-- The raw step `build` of the sample document: base image `dev-img`, a
label-scoped override for `env=prod` with image `prod-img`. -/
def buildRaw : hclStage :=
  { Use := ⟨"docker"⟩, Body := ⟨"dev-img"⟩, WorkspaceScoped := [],
    LabelScoped := [⟨"env=prod", ⟨"docker-prod"⟩, ⟨"prod-img"⟩⟩] }

/-- The raw step `push` of the sample document: no override. -/
def pushRaw : hclStage :=
  { Use := ⟨"registry"⟩, Body := ⟨"push-body"⟩, WorkspaceScoped := [], LabelScoped := [] }

/-- A raw step whose body does not decode. -/
def badRaw : hclStage :=
  { Use := ⟨"exec"⟩, Body := ⟨"bad"⟩, WorkspaceScoped := [], LabelScoped := [] }

/-- A raw step with a workspace override and a label override that both match
`baseCtx`. -/
def bothRaw : hclStage :=
  { Use := ⟨"docker"⟩, Body := ⟨"dev-img"⟩,
    WorkspaceScoped := [⟨"dev", ⟨"docker-dev"⟩, ⟨"ws-dev-img"⟩⟩,
                        ⟨"prod", ⟨"docker-ws"⟩, ⟨"ws-prod-img"⟩⟩],
    LabelScoped := [⟨"env=prod", ⟨"docker-label"⟩, ⟨"label-prod-img"⟩⟩] }

/-- A raw step with a workspace-scoped override for `prod` and no label
rule. -/
def prodRaw : hclStage :=
  { Use := ⟨"docker"⟩, Body := ⟨"dev-img"⟩,
    WorkspaceScoped := [⟨"prod", ⟨"docker-prod"⟩, ⟨"prod-img"⟩⟩], LabelScoped := [] }

/-- The step `build` with other scoping rules and another `Use`, its body
unchanged. -/
def buildRescoped : hclStage :=
  { Use := ⟨"other"⟩, Body := ⟨"dev-img"⟩,
    WorkspaceScoped := [⟨"prod", ⟨"docker-ws"⟩, ⟨"ws-prod-img"⟩⟩], LabelScoped := [] }

/-- The raw pipeline `deploy` with steps `[build, push]`. -/
def deployRaw : hclPipeline :=
  { Id := "deploy", Name := "Deploy", StepRaw := [buildRaw, pushRaw],
    Body := ⟨"deploy-body"⟩, Remain := ⟨"deploy-remain"⟩ }

/-- A second raw pipeline that reuses the id `deploy`. -/
def deployAgainRaw : hclPipeline :=
  { Id := "deploy", Name := "Deploy again", StepRaw := [pushRaw],
    Body := ⟨"bad"⟩, Remain := ⟨"again-remain"⟩ }

/-- A raw pipeline with another id. -/
def releaseRaw : hclPipeline :=
  { Id := "release", Name := "Release", StepRaw := [pushRaw],
    Body := ⟨"release-body"⟩, Remain := ⟨"release-remain"⟩ }

/-- The sample registry: the document declares only `deploy`. -/
def sampleConfig : Config :=
  { hclConfig := ⟨[deployRaw]⟩, ctx := some baseCtx }

/-- A registry in which the id `deploy` is declared twice, after `release`. -/
def duplicateConfig : Config :=
  { hclConfig := ⟨[releaseRaw, deployRaw, deployAgainRaw]⟩, ctx := some baseCtx }

/-- The decoded pipeline `deploy` as a lookup under `baseCtx` leaves it. -/
def deployPipeline (steps : List hclStage) : Pipeline :=
  { Id := "deploy", Name := "Deploy", StepRaw := steps, Body := ⟨"deploy-body"⟩,
    ctx := some baseCtx, config := some () }

/-! ## The loops are folds of their iterations -/

section Loops

variable {ι α : Type} (visit : ι → Except Error α × List Call)

theorem visitAll_ok {xs : List ι} {out : List α}
    (h : List.Forall₂ (fun x a => (visit x).1 = .ok a) xs out) (acc : List α) :
    visitAll visit xs acc = (.ok (acc ++ out), xs.flatMap (fun x => (visit x).2)) := by
  induction h generalizing acc with
  | nil => simp [visitAll]
  | cons hxa _ ih =>
    simp only [visitAll, hxa, ih, List.flatMap_cons, List.append_assoc,
      List.singleton_append]

theorem visitAll_error {pre : List ι} {outs : List α}
    (h : List.Forall₂ (fun x a => (visit x).1 = .ok a) pre outs)
    (r : ι) (post : List ι) (e : Error) (hr : (visit r).1 = .error e) (acc : List α) :
    visitAll visit (pre ++ r :: post) acc
      = (.error e, (pre ++ [r]).flatMap (fun x => (visit x).2)) := by
  induction h generalizing acc with
  | nil => simp [visitAll, hr]
  | @cons x a l₁ l₂ hxa _ ih =>
    have hstep := ih (acc ++ [a])
    simp only [List.cons_append, visitAll, hxa, List.append_eq, hstep, List.flatMap_cons]

theorem visitAll_ok_inv (xs : List ι) (acc res : List α)
    (h : (visitAll visit xs acc).1 = .ok res) :
    ∃ out, res = acc ++ out ∧ List.Forall₂ (fun x a => (visit x).1 = .ok a) xs out := by
  induction xs generalizing acc with
  | nil =>
    refine ⟨[], ?_, List.Forall₂.nil⟩
    simp only [visitAll, Except.ok.injEq] at h
    simp [← h]
  | cons x rest ih =>
    cases hx : (visit x).1 with
    | error e => simp [visitAll, hx] at h
    | ok a =>
      simp only [visitAll, hx] at h
      obtain ⟨out, hres, hall⟩ := ih _ h
      exact ⟨a :: out, by simp [hres], List.Forall₂.cons hx hall⟩

theorem visitAll_split (xs : List ι) :
    (∃ out, List.Forall₂ (fun x a => (visit x).1 = .ok a) xs out) ∨
    (∃ pre outs r post e, xs = pre ++ r :: post ∧
      List.Forall₂ (fun x a => (visit x).1 = .ok a) pre outs ∧ (visit r).1 = .error e) := by
  induction xs with
  | nil => exact Or.inl ⟨[], List.Forall₂.nil⟩
  | cons x rest ih =>
    cases hx : (visit x).1 with
    | error e => exact Or.inr ⟨[], [], x, rest, e, rfl, List.Forall₂.nil, hx⟩
    | ok a =>
      rcases ih with ⟨out, hout⟩ | ⟨pre, outs, r, post, e, hxs, hpre, hr⟩
      · exact Or.inl ⟨a :: out, List.Forall₂.cons hx hout⟩
      · exact Or.inr ⟨x :: pre, a :: outs, r, post, e, by simp [hxs],
          List.Forall₂.cons hx hpre, hr⟩

theorem forall₂_of_forall_mem {xs : List ι}
    (h : ∀ x ∈ xs, ∃ a, (visit x).1 = .ok a) :
    ∃ out, List.Forall₂ (fun x a => (visit x).1 = .ok a) xs out := by
  induction xs with
  | nil => exact ⟨[], List.Forall₂.nil⟩
  | cons x rest ih =>
    obtain ⟨a, ha⟩ := h x (List.mem_cons_self _ _)
    obtain ⟨out, hout⟩ := ih (fun y hy => h y (List.mem_cons_of_mem _ hy))
    exact ⟨a :: out, List.Forall₂.cons ha hout⟩

theorem forall₂_mem_left {R : ι → α → Prop} {xs : List ι} {out : List α}
    (h : List.Forall₂ R xs out) : ∀ x ∈ xs, ∃ a, R x a := by
  induction h with
  | nil => intro x hx; cases hx
  | cons hxa _ ih =>
    intro y hy
    rcases List.mem_cons.mp hy with rfl | hy
    · exact ⟨_, hxa⟩
    · exact ih y hy

theorem forall₂_getElem? {R : ι → α → Prop} {xs : List ι} {out : List α}
    (h : List.Forall₂ R xs out) :
    ∀ (i : Nat) (x : ι), xs[i]? = some x → ∃ a, out[i]? = some a ∧ R x a := by
  induction h with
  | nil => intro i x hx; simp at hx
  | cons hxa _ ih =>
    intro i x hx
    cases i with
    | zero =>
      simp only [List.getElem?_cons_zero, Option.some.injEq] at hx
      subst hx
      exact ⟨_, by simp, hxa⟩
    | succ n =>
      simp only [List.getElem?_cons_succ] at hx
      obtain ⟨a, ha, hR⟩ := ih n x hx
      exact ⟨a, by simpa using ha, hR⟩

end Loops

theorem stepLoop_eq_visitAll (env : Externals) (ctx : Option EvalContext)
    (rs : List hclStage) (acc : List Step) :
    Pipeline.stepLoop env ctx rs acc = visitAll (stepVisit env ctx) rs acc := by
  induction rs generalizing acc with
  | nil => rfl
  | cons r rest ih =>
    simp only [Pipeline.stepLoop, visitAll, stepVisit]
    cases env.scopeMatchStage ctx r.WorkspaceScoped r.LabelScoped with
    | error e => rfl
    | ok scope =>
      simp only []
      cases env.decodeStep (effectiveBody scope r) (env.finalizeContext ctx) with
      | error d => rfl
      | ok s => simp [ih]

theorem stepsUseLoop_eq_visitAll (env : Externals) (ctx : Option EvalContext)
    (rs : List hclStage) (acc : List String) :
    Pipeline.stepsUseLoop env ctx rs acc = visitAll (stepsUseVisit env ctx) rs acc := by
  induction rs generalizing acc with
  | nil => rfl
  | cons r rest ih =>
    simp only [Pipeline.stepsUseLoop, visitAll, stepsUseVisit]
    cases env.scopeMatchStage ctx r.WorkspaceScoped r.LabelScoped with
    | error e => rfl
    | ok scope => simp [ih]

theorem stepLabelsLoop_eq_visitAll (env : Externals) (ctx : Option EvalContext)
    (rs : List hclStage) (acc : List (List (String × String))) :
    Pipeline.stepLabelsLoop env ctx rs acc = visitAll (stepLabelsVisit env ctx) rs acc := by
  induction rs generalizing acc with
  | nil => rfl
  | cons r rest ih =>
    simp only [Pipeline.stepLabelsLoop, visitAll, stepLabelsVisit]
    cases env.labels ctx r.Body with
    | error e => rfl
    | ok l => simp [ih]

/-! ## The registry lookup -/

theorem findRawPipeline_none {id : String} {ps : List hclPipeline}
    (h : ∀ p ∈ ps, p.Id ≠ id) : findRawPipeline id ps = none := by
  induction ps with
  | nil => rfl
  | cons p rest ih =>
    have hp : p.Id ≠ id := h p (List.mem_cons_self _ _)
    simp only [findRawPipeline, hp, if_false]
    exact ih (fun q hq => h q (List.mem_cons_of_mem _ hq))

theorem findRawPipeline_first {id : String} {pre post : List hclPipeline} {p : hclPipeline}
    (hpre : ∀ q ∈ pre, q.Id ≠ id) (hp : p.Id = id) :
    findRawPipeline id (pre ++ p :: post) = some p := by
  induction pre with
  | nil => simp [findRawPipeline, hp]
  | cons q rest ih =>
    have hq : q.Id ≠ id := hpre q (List.mem_cons_self _ _)
    simp only [List.cons_append, findRawPipeline, hq, if_false]
    exact ih (fun x hx => hpre x (List.mem_cons_of_mem _ hx))

theorem findRawPipeline_some {id : String} {ps : List hclPipeline} {p : hclPipeline}
    (h : findRawPipeline id ps = some p) : p ∈ ps ∧ p.Id = id := by
  induction ps with
  | nil => simp [findRawPipeline] at h
  | cons q rest ih =>
    by_cases hq : q.Id = id
    · simp only [findRawPipeline, hq, if_true, Option.some.injEq] at h
      subst h
      exact ⟨List.mem_cons_self _ _, hq⟩
    · simp only [findRawPipeline, hq, if_false] at h
      exact ⟨List.mem_cons_of_mem _ (ih h).1, (ih h).2⟩

theorem findRawPipeline_of_mem {id : String} {ps : List hclPipeline}
    (h : ∃ p ∈ ps, p.Id = id) : ∃ raw, findRawPipeline id ps = some raw := by
  cases hf : findRawPipeline id ps with
  | some raw => exact ⟨raw, rfl⟩
  | none =>
    exfalso
    obtain ⟨p, hp, hid⟩ := h
    induction ps with
    | nil => cases hp
    | cons q rest ih =>
      by_cases hq : q.Id = id
      · simp [findRawPipeline, hq] at hf
      · simp only [findRawPipeline, hq, if_false] at hf
        rcases List.mem_cons.mp hp with rfl | hp
        · exact hq hid
        · exact ih hf hp

/-- C1: for an id that is the `Id` of no raw pipeline of the registry,
`Config.Pipeline` returns `(nil, nil)` whatever the caller context is, makes no
collaborator call (the body decoder is not invoked) and leaves the registry as
it was. -/
theorem pipeline_absent_id_returns_nil (env : Externals) (c : Config) (id : String)
    (ctx : Option EvalContext) (h : ∀ p ∈ c.hclConfig.Pipelines, p.Id ≠ id) :
    Config.Pipeline env c id ctx = (.ok none, c, []) := by
  simp only [Config.Pipeline, findRawPipeline_none h]

theorem pipeline_absent_id_returns_nil_witness :
    (∀ p ∈ sampleConfig.hclConfig.Pipelines, p.Id ≠ "missing") ∧
    Config.Pipeline sampleEnv sampleConfig "missing" (some callerCtx)
      = (.ok none, sampleConfig, []) :=
  ⟨by decide,
    pipeline_absent_id_returns_nil sampleEnv sampleConfig "missing" (some callerCtx)
      (by decide)⟩

/-- C2, as the claim states it, fails: looking up the declared pipeline
`deploy` with a caller context replaces the registry's stored context, which
was `baseCtx`, by the context composed for the call. -/
theorem pipeline_lookup_replaces_registry_ctx :
    sampleConfig.ctx = some baseCtx ∧
    (Config.Pipeline sampleEnv sampleConfig "deploy" (some callerCtx)).2.1.ctx
      = some (.child [("artifact", .str "a1")] [] baseCtx) ∧
    (Config.Pipeline sampleEnv sampleConfig "deploy" (some callerCtx)).2.1.ctx
      ≠ sampleConfig.ctx :=
  ⟨rfl, rfl, by decide⟩

/-- C2, amended: a lookup never touches the raw pipeline list; a lookup that
returns no pipeline (the id is not declared, or the body decode fails) leaves
the registry's stored context as it was; a lookup that returns a pipeline
stores in the registry the context composed for the call,
`appendContext c.ctx ctx`, which is also the returned pipeline's context. -/
theorem pipeline_lookup_registry_ctx (env : Externals) (c : Config) (id : String)
    (ctx : Option EvalContext) :
    (Config.Pipeline env c id ctx).2.1.hclConfig = c.hclConfig ∧
    ((∀ pl, (Config.Pipeline env c id ctx).1 ≠ .ok (some pl)) →
      (Config.Pipeline env c id ctx).2.1 = c) ∧
    (∀ pl, (Config.Pipeline env c id ctx).1 = .ok (some pl) →
      (Config.Pipeline env c id ctx).2.1.ctx = appendContext c.ctx ctx ∧
      pl.ctx = appendContext c.ctx ctx) := by
  unfold Config.Pipeline
  cases findRawPipeline id c.hclConfig.Pipelines with
  | none => simp
  | some raw =>
    simp only []
    cases env.decodePipeline raw.Body (env.finalizeContext (appendContext c.ctx ctx)) with
    | error d => simp
    | ok pl =>
      refine ⟨rfl, ?_, ?_⟩
      · intro hno
        exact absurd rfl (hno _)
      · intro pl2 hpl
        simp only [Except.ok.injEq, Option.some.injEq] at hpl
        subst hpl
        exact ⟨rfl, rfl⟩

/-- C3: when the registry declares a pipeline with identifier `id`, a lookup of
`id` never answers "not found"; every pipeline it returns has `Ref().Id = id`;
and whenever the body of the first raw pipeline with that id decodes, to any
value `d` at all, a pipeline is returned whose `Id` is the raw pipeline's `Id`,
not the one the decode wrote, and whose `Ref()` wraps exactly that `Id`. -/
theorem pipeline_ref_id_eq (env : Externals) (c : Config) (id : String)
    (ctx : Option EvalContext) (h : ∃ p ∈ c.hclConfig.Pipelines, p.Id = id) :
    (Config.Pipeline env c id ctx).1 ≠ .ok none ∧
    (∀ pl, (Config.Pipeline env c id ctx).1 = .ok (some pl) →
      pl.Id = id ∧ pl.Ref = { Id := id }) ∧
    (∃ raw, raw ∈ c.hclConfig.Pipelines ∧ raw.Id = id ∧
      ∀ d, env.decodePipeline raw.Body (env.finalizeContext (appendContext c.ctx ctx)) = .ok d →
        ∃ pl, (Config.Pipeline env c id ctx).1 = .ok (some pl) ∧
          pl.Id = raw.Id ∧ pl.Ref = { Id := raw.Id } ∧ pl.Ref.Id = id) := by
  obtain ⟨raw, hraw⟩ := findRawPipeline_of_mem h
  obtain ⟨hmem, hid⟩ := findRawPipeline_some hraw
  unfold Config.Pipeline
  simp only [hraw]
  refine ⟨?_, ?_, raw, hmem, hid, ?_⟩
  · cases env.decodePipeline raw.Body (env.finalizeContext (appendContext c.ctx ctx)) <;> simp
  · intro pl hpl
    cases hd : env.decodePipeline raw.Body (env.finalizeContext (appendContext c.ctx ctx)) with
    | error d => simp [hd] at hpl
    | ok d =>
      simp only [hd, Except.ok.injEq, Option.some.injEq] at hpl
      subst hpl
      exact ⟨hid, by simp [Pipeline.Ref, hid]⟩
  · intro d hd
    simp only [hd]
    exact ⟨_, rfl, rfl, rfl, hid⟩

theorem pipeline_ref_id_eq_witness :
    (∃ p ∈ sampleConfig.hclConfig.Pipelines, p.Id = "deploy") ∧
    (∃ pl, (Config.Pipeline sampleEnv sampleConfig "deploy" (some callerCtx)).1
        = .ok (some pl) ∧ pl.Ref = { Id := "deploy" }) :=
  ⟨⟨deployRaw, by decide, rfl⟩,
    by
      obtain ⟨_, hall, _⟩ :=
        pipeline_ref_id_eq sampleEnv sampleConfig "deploy" (some callerCtx)
          ⟨deployRaw, by decide, rfl⟩
      exact ⟨_, rfl, (hall _ rfl).2⟩⟩

/-- C8: when the raw pipeline `p` is the earliest one whose `Id` equals `id`,
whatever follows it (later raw pipelines with the same id included), the lookup
makes exactly one decoder call, on the body of `p`; if that decode fails the
lookup returns its error, and if it succeeds the lookup returns the decoded
pipeline with `Id` and `Name` set to those of `p`.  No other outcome exists, so
a repeated id is never reported as an error. -/
theorem pipeline_first_match_wins (env : Externals) (c : Config) (id : String)
    (ctx : Option EvalContext) (pre post : List hclPipeline) (p : hclPipeline)
    (hsplit : c.hclConfig.Pipelines = pre ++ p :: post)
    (hpre : ∀ q ∈ pre, q.Id ≠ id) (hp : p.Id = id) :
    (Config.Pipeline env c id ctx).2.2
      = [Call.DecodeBody p.Body (env.finalizeContext (appendContext c.ctx ctx))] ∧
    (∀ e, env.decodePipeline p.Body (env.finalizeContext (appendContext c.ctx ctx)) = .error e →
      (Config.Pipeline env c id ctx).1 = .error e) ∧
    (∀ d, env.decodePipeline p.Body (env.finalizeContext (appendContext c.ctx ctx)) = .ok d →
      (Config.Pipeline env c id ctx).1
        = .ok (some { d with Id := p.Id, Name := p.Name,
                             ctx := appendContext c.ctx ctx, config := some () })) := by
  have hfind : findRawPipeline id c.hclConfig.Pipelines = some p := by
    rw [hsplit]
    exact findRawPipeline_first hpre hp
  unfold Config.Pipeline
  simp only [hfind]
  cases env.decodePipeline p.Body (env.finalizeContext (appendContext c.ctx ctx)) with
  | error e => simp
  | ok d => simp

theorem pipeline_first_match_wins_witness :
    duplicateConfig.hclConfig.Pipelines = [releaseRaw] ++ deployRaw :: [deployAgainRaw] ∧
    deployAgainRaw.Id = deployRaw.Id ∧
    (Config.Pipeline sampleEnv duplicateConfig "deploy" none).2.2
      = [Call.DecodeBody ⟨"deploy-body"⟩ (some baseCtx)] ∧
    (Config.Pipeline sampleEnv duplicateConfig "deploy" none).1
      = .ok (some { Id := "deploy", Name := "Deploy", StepRaw := [],
                    Body := ⟨"deploy-body"⟩, ctx := some baseCtx, config := some () }) :=
  ⟨rfl, rfl,
    (pipeline_first_match_wins sampleEnv duplicateConfig "deploy" none
      [releaseRaw] [deployAgainRaw] deployRaw rfl (by decide) rfl).1,
    rfl⟩

/-! ## Step resolution -/

theorem stepVisit_ok_iff (env : Externals) (ctx : Option EvalContext) (r : hclStage)
    (s : Step) :
    (stepVisit env ctx r).1 = .ok s ↔
      ∃ scope d, env.scopeMatchStage ctx r.WorkspaceScoped r.LabelScoped = .ok scope ∧
        env.decodeStep (effectiveBody scope r) (env.finalizeContext ctx) = .ok d ∧
        s = { d with ctx := ctx } := by
  unfold stepVisit
  cases hs : env.scopeMatchStage ctx r.WorkspaceScoped r.LabelScoped with
  | error e => simp
  | ok scope =>
    simp only []
    cases hd : env.decodeStep (effectiveBody scope r) (env.finalizeContext ctx) with
    | error d => simp [hd]
    | ok d =>
      simp only [Except.ok.injEq, exists_and_left, exists_eq_left', hd]
      exact eq_comm

theorem stepVisit_error_iff (env : Externals) (ctx : Option EvalContext) (r : hclStage)
    (e : Error) :
    (stepVisit env ctx r).1 = .error e ↔
      (env.scopeMatchStage ctx r.WorkspaceScoped r.LabelScoped = .error e ∨
        ∃ scope, env.scopeMatchStage ctx r.WorkspaceScoped r.LabelScoped = .ok scope ∧
          env.decodeStep (effectiveBody scope r) (env.finalizeContext ctx) = .error e) := by
  unfold stepVisit
  cases hs : env.scopeMatchStage ctx r.WorkspaceScoped r.LabelScoped with
  | error e2 => simp
  | ok scope =>
    simp only []
    cases hd : env.decodeStep (effectiveBody scope r) (env.finalizeContext ctx) with
    | error d => simp [hd]
    | ok d => simp [hd]

/-- C4: when, under the context composed from the pipeline's context and the
caller's, scope resolution succeeds on every raw step and the body it selects
decodes, `Pipeline.Step` returns one step per raw step, in declaration order;
the step at index `i` is the value decoded (under the finalized composed
context) from the override's body when scope resolution of raw step `i`
selected an override and from raw step `i`'s own body when it selected none,
stamped with the composed context. -/
theorem step_decodes_every_raw_step (env : Externals) (c : Pipeline)
    (ctx : Option EvalContext)
    (h : ∀ r ∈ c.StepRaw, ∃ scope d,
      env.scopeMatchStage (appendContext c.ctx ctx) r.WorkspaceScoped r.LabelScoped
        = .ok scope ∧
      env.decodeStep (effectiveBody scope r) (env.finalizeContext (appendContext c.ctx ctx))
        = .ok d) :
    ∃ steps, (Pipeline.Step env c ctx).1 = .ok steps ∧
      steps.length = c.StepRaw.length ∧
      ∀ (i : Nat) (r : hclStage), c.StepRaw[i]? = some r →
        ∃ scope d,
          env.scopeMatchStage (appendContext c.ctx ctx) r.WorkspaceScoped r.LabelScoped
            = .ok scope ∧
          (∀ sc, scope = some sc →
            env.decodeStep sc.Body (env.finalizeContext (appendContext c.ctx ctx)) = .ok d) ∧
          (scope = none →
            env.decodeStep r.Body (env.finalizeContext (appendContext c.ctx ctx)) = .ok d) ∧
          steps[i]? = some { d with ctx := appendContext c.ctx ctx } := by
  have hall : ∀ r ∈ c.StepRaw, ∃ s, (stepVisit env (appendContext c.ctx ctx) r).1 = .ok s := by
    intro r hr
    obtain ⟨scope, d, hs, hd⟩ := h r hr
    exact ⟨_, (stepVisit_ok_iff env _ r _).mpr ⟨scope, d, hs, hd, rfl⟩⟩
  obtain ⟨out, hout⟩ := forall₂_of_forall_mem _ hall
  refine ⟨out, ?_, hout.length_eq.symm, ?_⟩
  · simp only [Pipeline.Step, stepLoop_eq_visitAll, visitAll_ok _ hout, List.nil_append]
  · intro i r hi
    obtain ⟨s, hsi, hvis⟩ := forall₂_getElem? hout i r hi
    obtain ⟨scope, d, hs, hd, rfl⟩ := (stepVisit_ok_iff env _ r s).mp hvis
    refine ⟨scope, d, hs, ?_, ?_, hsi⟩
    · intro sc hsc; subst hsc; exact hd
    · intro hsc; subst hsc; exact hd

theorem step_decodes_every_raw_step_witness :
    (∀ r ∈ (deployPipeline [buildRaw, pushRaw]).StepRaw, ∃ scope d,
      sampleEnv.scopeMatchStage
          (appendContext (deployPipeline [buildRaw, pushRaw]).ctx (some stagingCtx))
          r.WorkspaceScoped r.LabelScoped = .ok scope ∧
      sampleEnv.decodeStep (effectiveBody scope r)
          (sampleEnv.finalizeContext
            (appendContext (deployPipeline [buildRaw, pushRaw]).ctx (some stagingCtx)))
        = .ok d) ∧
    (∃ steps, (Pipeline.Step sampleEnv (deployPipeline [buildRaw, pushRaw])
        (some stagingCtx)).1 = .ok steps ∧ steps.length = 2) ∧
    (Pipeline.Step sampleEnv (deployPipeline [buildRaw, pushRaw]) (some stagingCtx)).1
      = .ok [⟨[("image", "prod-img")], some (.child stagingCtx.Variables [] baseCtx)⟩,
             ⟨[("image", "push-body")], some (.child stagingCtx.Variables [] baseCtx)⟩] := by
  have hyp : ∀ r ∈ (deployPipeline [buildRaw, pushRaw]).StepRaw, ∃ scope d,
      sampleEnv.scopeMatchStage
          (appendContext (deployPipeline [buildRaw, pushRaw]).ctx (some stagingCtx))
          r.WorkspaceScoped r.LabelScoped = .ok scope ∧
      sampleEnv.decodeStep (effectiveBody scope r)
          (sampleEnv.finalizeContext
            (appendContext (deployPipeline [buildRaw, pushRaw]).ctx (some stagingCtx)))
        = .ok d := by
    intro r hr
    simp only [deployPipeline, List.mem_cons, List.mem_singleton, List.not_mem_nil,
      or_false] at hr
    rcases hr with rfl | rfl
    · exact ⟨_, _, rfl, rfl⟩
    · exact ⟨_, _, rfl, rfl⟩
  refine ⟨hyp, ?_, rfl⟩
  obtain ⟨steps, hsteps, hlen, _⟩ :=
    step_decodes_every_raw_step sampleEnv (deployPipeline [buildRaw, pushRaw])
      (some stagingCtx) hyp
  exact ⟨steps, hsteps, hlen⟩

/-- C5: when scope resolution or body decoding fails for some raw step (under
the context composed from the pipeline's context and the caller's),
`Pipeline.Step` returns no steps and the error of the first raw step, in
declaration order, that fails: the raw steps split as `pre ++ r :: post` where
every step of `pre` resolves and decodes, `r` fails with the returned error,
the calls made are those of visiting `pre` and `r` and nothing after, and the
whole outcome is the one of the pipeline cut off after `r`. -/
theorem step_stops_at_first_failure (env : Externals) (c : Pipeline)
    (ctx : Option EvalContext)
    (h : ∃ r ∈ c.StepRaw, ∃ e,
      env.scopeMatchStage (appendContext c.ctx ctx) r.WorkspaceScoped r.LabelScoped
        = .error e ∨
      ∃ scope,
        env.scopeMatchStage (appendContext c.ctx ctx) r.WorkspaceScoped r.LabelScoped
          = .ok scope ∧
        env.decodeStep (effectiveBody scope r)
          (env.finalizeContext (appendContext c.ctx ctx)) = .error e) :
    ∃ pre r post e, c.StepRaw = pre ++ r :: post ∧
      (∀ x ∈ pre, ∃ scope d,
        env.scopeMatchStage (appendContext c.ctx ctx) x.WorkspaceScoped x.LabelScoped
          = .ok scope ∧
        env.decodeStep (effectiveBody scope x)
          (env.finalizeContext (appendContext c.ctx ctx)) = .ok d) ∧
      (env.scopeMatchStage (appendContext c.ctx ctx) r.WorkspaceScoped r.LabelScoped
          = .error e ∨
        ∃ scope,
          env.scopeMatchStage (appendContext c.ctx ctx) r.WorkspaceScoped r.LabelScoped
            = .ok scope ∧
          env.decodeStep (effectiveBody scope r)
            (env.finalizeContext (appendContext c.ctx ctx)) = .error e) ∧
      (Pipeline.Step env c ctx).1 = .error e ∧
      sliceOf (Pipeline.Step env c ctx).1 = [] ∧
      (Pipeline.Step env c ctx).2
        = (pre ++ [r]).flatMap (fun x => (stepVisit env (appendContext c.ctx ctx) x).2) ∧
      Pipeline.Step env { c with StepRaw := pre ++ [r] } ctx = Pipeline.Step env c ctx := by
  rcases visitAll_split (stepVisit env (appendContext c.ctx ctx)) c.StepRaw with
    ⟨out, hout⟩ | ⟨pre, outs, r, post, e, hsplit, hpre, hr⟩
  · exfalso
    obtain ⟨r, hr, e, hfail⟩ := h
    obtain ⟨s, hs⟩ := forall₂_mem_left hout r hr
    have herr := (stepVisit_error_iff env _ r e).mpr hfail
    rw [hs] at herr
    cases herr
  · refine ⟨pre, r, post, e, hsplit, ?_, (stepVisit_error_iff env _ r e).mp hr, ?_, ?_, ?_, ?_⟩
    · intro x hx
      obtain ⟨s, hs⟩ := forall₂_mem_left hpre x hx
      obtain ⟨scope, d, h1, h2, _⟩ := (stepVisit_ok_iff env _ x s).mp hs
      exact ⟨scope, d, h1, h2⟩
    · simp only [Pipeline.Step, stepLoop_eq_visitAll, hsplit,
        visitAll_error _ hpre r post e hr]
    · simp only [Pipeline.Step, stepLoop_eq_visitAll, hsplit,
        visitAll_error _ hpre r post e hr, sliceOf]
    · simp only [Pipeline.Step, stepLoop_eq_visitAll, hsplit,
        visitAll_error _ hpre r post e hr]
    · have h1 := visitAll_error _ hpre r [] e hr ([] : List Step)
      have h2 := visitAll_error _ hpre r post e hr ([] : List Step)
      simp only [Pipeline.Step, stepLoop_eq_visitAll, hsplit, h1, h2]

theorem step_stops_at_first_failure_witness :
    (∃ r ∈ (deployPipeline [buildRaw, badRaw, pushRaw]).StepRaw, ∃ e,
      sampleEnv.scopeMatchStage
          (appendContext (deployPipeline [buildRaw, badRaw, pushRaw]).ctx (some stagingCtx))
          r.WorkspaceScoped r.LabelScoped = .error e ∨
      ∃ scope,
        sampleEnv.scopeMatchStage
            (appendContext (deployPipeline [buildRaw, badRaw, pushRaw]).ctx (some stagingCtx))
            r.WorkspaceScoped r.LabelScoped = .ok scope ∧
        sampleEnv.decodeStep (effectiveBody scope r)
          (sampleEnv.finalizeContext
            (appendContext (deployPipeline [buildRaw, badRaw, pushRaw]).ctx
              (some stagingCtx))) = .error e) ∧
    (∃ pre r post e, (deployPipeline [buildRaw, badRaw, pushRaw]).StepRaw = pre ++ r :: post ∧
      (Pipeline.Step sampleEnv (deployPipeline [buildRaw, badRaw, pushRaw])
        (some stagingCtx)).1 = .error e) ∧
    (Pipeline.Step sampleEnv (deployPipeline [buildRaw, badRaw, pushRaw]) (some stagingCtx))
      = (.error ⟨"decode step"⟩,
         [Call.scopeMatchStage (some (.child stagingCtx.Variables [] baseCtx)) []
            [⟨"env=prod", ⟨"docker-prod"⟩, ⟨"prod-img"⟩⟩],
          Call.DecodeBody ⟨"prod-img"⟩ (some (.child stagingCtx.Variables [] baseCtx)),
          Call.scopeMatchStage (some (.child stagingCtx.Variables [] baseCtx)) [] [],
          Call.DecodeBody ⟨"bad"⟩ (some (.child stagingCtx.Variables [] baseCtx))]) := by
  have hyp : ∃ r ∈ (deployPipeline [buildRaw, badRaw, pushRaw]).StepRaw, ∃ e,
      sampleEnv.scopeMatchStage
          (appendContext (deployPipeline [buildRaw, badRaw, pushRaw]).ctx (some stagingCtx))
          r.WorkspaceScoped r.LabelScoped = .error e ∨
      ∃ scope,
        sampleEnv.scopeMatchStage
            (appendContext (deployPipeline [buildRaw, badRaw, pushRaw]).ctx (some stagingCtx))
            r.WorkspaceScoped r.LabelScoped = .ok scope ∧
        sampleEnv.decodeStep (effectiveBody scope r)
          (sampleEnv.finalizeContext
            (appendContext (deployPipeline [buildRaw, badRaw, pushRaw]).ctx
              (some stagingCtx))) = .error e :=
    ⟨badRaw, by simp [deployPipeline], ⟨"decode step"⟩, Or.inr ⟨none, rfl, rfl⟩⟩
  refine ⟨hyp, ?_, rfl⟩
  obtain ⟨pre, r, post, e, hsplit, _, _, herr, _⟩ :=
    step_stops_at_first_failure sampleEnv (deployPipeline [buildRaw, badRaw, pushRaw])
      (some stagingCtx) hyp
  exact ⟨pre, r, post, e, hsplit, herr⟩

/-! ## Capability references and labels -/

theorem visitAll_calls_mem {ι α : Type} (visit : ι → Except Error α × List Call)
    (xs : List ι) (acc : List α) :
    ∀ call ∈ (visitAll visit xs acc).2, ∃ x ∈ xs, call ∈ (visit x).2 := by
  intro call hcall
  rcases visitAll_split visit xs with ⟨out, hout⟩ | ⟨pre, outs, r, post, e, hxs, hpre, hr⟩
  · rw [visitAll_ok visit hout] at hcall
    simpa [List.mem_flatMap] using hcall
  · rw [hxs, visitAll_error visit hpre r post e hr] at hcall
    obtain ⟨x, hx, hmem⟩ := List.mem_flatMap.mp hcall
    refine ⟨x, ?_, hmem⟩
    rw [hxs]
    rcases List.mem_append.mp hx with hx | hx
    · exact List.mem_append_left _ hx
    · exact List.mem_append_right _ (by simp at hx; simp [hx])

theorem flatMap_singleton_eq_map {ι κ : Type} (f : ι → κ) (xs : List ι) :
    xs.flatMap (fun x => [f x]) = xs.map f := by
  induction xs with
  | nil => rfl
  | cons x rest ih => simp only [List.flatMap_cons, List.map_cons, ih, List.singleton_append]

theorem visitAll_map {ι κ α : Type} (f : ι → κ) (visit : κ → Except Error α × List Call)
    (xs : List ι) (acc : List α) :
    visitAll (fun x => visit (f x)) xs acc = visitAll visit (xs.map f) acc := by
  induction xs generalizing acc with
  | nil => rfl
  | cons x rest ih =>
    simp only [visitAll, List.map_cons]
    cases (visit (f x)).1 with
    | error e => rfl
    | ok a => simp only [ih]

theorem stepsUse_eq_visitAll (env : Externals) (c : Pipeline) (ctx : Option EvalContext) :
    Pipeline.StepsUse env c ctx = visitAll (stepsUseVisit env ctx) c.StepRaw [] := by
  unfold Pipeline.StepsUse
  split
  · next h => rw [List.length_eq_zero.mp h]; rfl
  · exact stepsUseLoop_eq_visitAll env ctx c.StepRaw []

theorem stepLabels_eq_visitAll (env : Externals) (c : Pipeline) (ctx : Option EvalContext) :
    Pipeline.StepLabels env c ctx
      = visitAll (stepLabelsVisit env (appendContext c.ctx ctx)) c.StepRaw [] := by
  unfold Pipeline.StepLabels
  split
  · next h => rw [List.length_eq_zero.mp h]; rfl
  · exact stepLabelsLoop_eq_visitAll env _ c.StepRaw []

/-- C6, as the claim states it, fails: on a pipeline whose one raw step has a
body that does not decode, `Pipeline.Step` returns `(nil, err)`, no steps,
while `Pipeline.StepsUse`, which decodes no body, returns one `Use.Type`. -/
theorem stepsUse_length_differs_on_decode_failure :
    (Pipeline.Step sampleEnv (deployPipeline [badRaw]) (some baseCtx)).1
      = .error ⟨"decode step"⟩ ∧
    (Pipeline.StepsUse sampleEnv (deployPipeline [badRaw]) (some baseCtx)).1
      = .ok ["exec"] ∧
    (sliceOf (Pipeline.Step sampleEnv (deployPipeline [badRaw]) (some baseCtx)).1).length = 0 ∧
    (sliceOf (Pipeline.StepsUse sampleEnv (deployPipeline [badRaw]) (some baseCtx)).1).length
      = 1 :=
  ⟨rfl, rfl, rfl, rfl⟩

/-- C6, amended: whenever `Pipeline.Step` and `Pipeline.StepsUse` both succeed
on the same pipeline and caller context, the two sequences they return have the
same length, which is the number of raw steps. -/
theorem stepsUse_length_eq_step_length (env : Externals) (c : Pipeline)
    (ctx : Option EvalContext) (steps : List Step) (uses : List String)
    (hsteps : (Pipeline.Step env c ctx).1 = .ok steps)
    (huses : (Pipeline.StepsUse env c ctx).1 = .ok uses) :
    uses.length = steps.length ∧ steps.length = c.StepRaw.length := by
  simp only [Pipeline.Step, stepLoop_eq_visitAll] at hsteps
  rw [stepsUse_eq_visitAll] at huses
  obtain ⟨o1, h1, hf1⟩ := visitAll_ok_inv _ _ _ _ hsteps
  obtain ⟨o2, h2, hf2⟩ := visitAll_ok_inv _ _ _ _ huses
  simp only [List.nil_append] at h1 h2
  subst h1 h2
  exact ⟨by rw [← hf2.length_eq, ← hf1.length_eq], hf1.length_eq.symm⟩

theorem stepsUse_length_eq_step_length_witness :
    (Pipeline.Step sampleEnv (deployPipeline [buildRaw, pushRaw]) (some baseCtx)).1
      = .ok [⟨[("image", "prod-img")], some (.child baseCtx.Variables [] baseCtx)⟩,
             ⟨[("image", "push-body")], some (.child baseCtx.Variables [] baseCtx)⟩] ∧
    (Pipeline.StepsUse sampleEnv (deployPipeline [buildRaw, pushRaw]) (some baseCtx)).1
      = .ok ["docker-prod", "registry"] ∧
    ["docker-prod", "registry"].length = 2 :=
  ⟨rfl, rfl,
    ((stepsUse_length_eq_step_length sampleEnv (deployPipeline [buildRaw, pushRaw])
        (some baseCtx) _ ["docker-prod", "registry"] rfl rfl).1.trans
      (stepsUse_length_eq_step_length sampleEnv (deployPipeline [buildRaw, pushRaw])
        (some baseCtx) _ ["docker-prod", "registry"] rfl rfl).2)⟩

/-- C7 fails on the code: `Pipeline.StepsUse` hands `scopeMatchStage` the
caller's context as passed, never the pipeline's context composed with it, which
is what `Pipeline.Step` hands it.  For all collaborators, pipelines and caller
contexts, every call `Pipeline.StepsUse` makes is a scope resolution under the
caller's own context, and on a pipeline with a first raw step the first call of
`Pipeline.StepsUse` resolves that step under the caller's context while the
first call of `Pipeline.Step` resolves it under `appendContext c.ctx ctx`.  At a
nil caller context the two differ: for a pipeline whose context binds the
workspace `prod` and whose one raw step has an override for `prod`,
`Pipeline.Step` resolves under the pipeline's context, selects the override and
decodes its body, while `Pipeline.StepsUse` resolves under nil, selects nothing
and reports the base `Use.Type`. -/
theorem stepsUse_resolves_under_caller_ctx_only :
    (∀ (env : Externals) (c : Pipeline) (ctx : Option EvalContext),
      (∀ call ∈ (Pipeline.StepsUse env c ctx).2, ∃ r ∈ c.StepRaw,
        call = Call.scopeMatchStage ctx r.WorkspaceScoped r.LabelScoped) ∧
      (∀ (r : hclStage) (rest : List hclStage), c.StepRaw = r :: rest →
        (Pipeline.StepsUse env c ctx).2.head?
          = some (Call.scopeMatchStage ctx r.WorkspaceScoped r.LabelScoped) ∧
        (Pipeline.Step env c ctx).2.head?
          = some (Call.scopeMatchStage (appendContext c.ctx ctx)
              r.WorkspaceScoped r.LabelScoped))) ∧
    appendContext (deployPipeline [prodRaw]).ctx none = some baseCtx ∧
    sampleEnv.scopeMatchStage (some baseCtx) prodRaw.WorkspaceScoped prodRaw.LabelScoped
      = .ok (some ⟨"prod", ⟨"docker-prod"⟩, ⟨"prod-img"⟩⟩) ∧
    sampleEnv.scopeMatchStage none prodRaw.WorkspaceScoped prodRaw.LabelScoped = .ok none ∧
    Pipeline.Step sampleEnv (deployPipeline [prodRaw]) none
      = (.ok [⟨[("image", "prod-img")], some baseCtx⟩],
         [Call.scopeMatchStage (some baseCtx) [⟨"prod", ⟨"docker-prod"⟩, ⟨"prod-img"⟩⟩] [],
          Call.DecodeBody ⟨"prod-img"⟩ (some baseCtx)]) ∧
    Pipeline.StepsUse sampleEnv (deployPipeline [prodRaw]) none
      = (.ok ["docker"],
         [Call.scopeMatchStage none [⟨"prod", ⟨"docker-prod"⟩, ⟨"prod-img"⟩⟩] []]) := by
  refine ⟨?_, rfl, rfl, rfl, rfl, rfl⟩
  intro env c ctx
  refine ⟨?_, ?_⟩
  · intro call hcall
    rw [stepsUse_eq_visitAll] at hcall
    obtain ⟨x, hx, hmem⟩ := visitAll_calls_mem _ _ _ call hcall
    refine ⟨x, hx, ?_⟩
    unfold stepsUseVisit at hmem
    cases hs : env.scopeMatchStage ctx x.WorkspaceScoped x.LabelScoped with
    | error e => simpa [hs] using hmem
    | ok stage => simpa [hs] using hmem
  · intro r rest hc
    constructor
    · simp only [Pipeline.StepsUse, hc, List.length_cons, Nat.succ_ne_zero, if_false,
        Pipeline.stepsUseLoop]
      cases env.scopeMatchStage ctx r.WorkspaceScoped r.LabelScoped <;> rfl
    · simp only [Pipeline.Step, hc, Pipeline.stepLoop]
      cases env.scopeMatchStage (appendContext c.ctx ctx) r.WorkspaceScoped r.LabelScoped with
      | error e => rfl
      | ok scope =>
        simp only []
        cases env.decodeStep (effectiveBody scope r)
          (env.finalizeContext (appendContext c.ctx ctx)) <;> rfl

/-- C9: `Pipeline.StepLabels` with no raw steps returns `(nil, nil)` and calls
nothing; when label extraction succeeds on every raw step's own body under the
pipeline's context composed with the caller's, it returns one label mapping per
raw step, in declaration order, the one at index `i` extracted from raw step
`i`'s own body; when extraction fails on a raw step and succeeded on all
earlier ones it returns no mappings and that step's error, having visited
nothing after it; every call it makes is a label extraction on a raw step's own
body under the composed context, and its whole outcome depends on the raw steps
through their own bodies only, not through their scope overrides. -/
theorem stepLabels_reads_own_bodies (env : Externals) (c : Pipeline)
    (ctx : Option EvalContext) :
    (c.StepRaw = [] → Pipeline.StepLabels env c ctx = (.ok [], [])) ∧
    ((∀ r ∈ c.StepRaw, ∃ l, env.labels (appendContext c.ctx ctx) r.Body = .ok l) →
      ∃ ls, (Pipeline.StepLabels env c ctx).1 = .ok ls ∧
        ls.length = c.StepRaw.length ∧
        ∀ (i : Nat) (r : hclStage), c.StepRaw[i]? = some r →
          ∃ l, ls[i]? = some l ∧ env.labels (appendContext c.ctx ctx) r.Body = .ok l) ∧
    (∀ pre r post e, c.StepRaw = pre ++ r :: post →
      (∀ x ∈ pre, ∃ l, env.labels (appendContext c.ctx ctx) x.Body = .ok l) →
      env.labels (appendContext c.ctx ctx) r.Body = .error e →
        (Pipeline.StepLabels env c ctx).1 = .error e ∧
        sliceOf (Pipeline.StepLabels env c ctx).1 = [] ∧
        (Pipeline.StepLabels env c ctx).2
          = (pre ++ [r]).map (fun x => Call.labels (appendContext c.ctx ctx) x.Body)) ∧
    (∀ call ∈ (Pipeline.StepLabels env c ctx).2,
      ∃ r ∈ c.StepRaw, call = Call.labels (appendContext c.ctx ctx) r.Body) ∧
    (∀ c2 : Pipeline, c2.ctx = c.ctx →
      c2.StepRaw.map (fun r => r.Body) = c.StepRaw.map (fun r => r.Body) →
      Pipeline.StepLabels env c2 ctx = Pipeline.StepLabels env c ctx) := by
  refine ⟨?_, ?_, ?_, ?_, ?_⟩
  · intro h
    simp [Pipeline.StepLabels, h]
  · intro h
    obtain ⟨out, hout⟩ :=
      forall₂_of_forall_mem (stepLabelsVisit env (appendContext c.ctx ctx)) h
    refine ⟨out, ?_, hout.length_eq.symm, ?_⟩
    · rw [stepLabels_eq_visitAll, visitAll_ok _ hout]; rfl
    · intro i r hi
      exact forall₂_getElem? hout i r hi
  · intro pre r post e hsplit hpre hr
    obtain ⟨outs, houts⟩ :=
      forall₂_of_forall_mem (stepLabelsVisit env (appendContext c.ctx ctx)) hpre
    have hv := visitAll_error (stepLabelsVisit env (appendContext c.ctx ctx)) houts r post e hr
      ([] : List (List (String × String)))
    rw [stepLabels_eq_visitAll, hsplit, hv]
    refine ⟨rfl, rfl, ?_⟩
    exact flatMap_singleton_eq_map _ _
  · intro call hcall
    rw [stepLabels_eq_visitAll] at hcall
    obtain ⟨x, hx, hmem⟩ := visitAll_calls_mem _ _ _ call hcall
    exact ⟨x, hx, by simpa [stepLabelsVisit] using hmem⟩
  · intro c2 hctx hbodies
    rw [stepLabels_eq_visitAll, stepLabels_eq_visitAll, hctx]
    have key : ∀ rs : List hclStage,
        visitAll (stepLabelsVisit env (appendContext c.ctx ctx)) rs []
          = visitAll (fun b => (env.labels (appendContext c.ctx ctx) b,
              [Call.labels (appendContext c.ctx ctx) b])) (rs.map (fun r => r.Body)) [] :=
      fun rs => visitAll_map (fun r : hclStage => r.Body)
        (fun b => (env.labels (appendContext c.ctx ctx) b,
          [Call.labels (appendContext c.ctx ctx) b])) rs []
    rw [key, key, hbodies]

theorem stepLabels_reads_own_bodies_witness :
    Pipeline.StepLabels sampleEnv (deployPipeline [buildRaw, pushRaw]) (some callerCtx)
      = (.ok [[("from", "dev-img")], [("from", "push-body")]],
         [Call.labels (some (.child [("artifact", .str "a1")] [] baseCtx)) ⟨"dev-img"⟩,
          Call.labels (some (.child [("artifact", .str "a1")] [] baseCtx)) ⟨"push-body"⟩]) ∧
    Pipeline.StepLabels sampleEnv (deployPipeline [buildRescoped, pushRaw]) (some callerCtx)
      = Pipeline.StepLabels sampleEnv (deployPipeline [buildRaw, pushRaw]) (some callerCtx) ∧
    (Pipeline.StepLabels sampleEnv (deployPipeline [buildRaw, badRaw, pushRaw])
        (some callerCtx)).1 = .error ⟨"labels"⟩ ∧
    Pipeline.StepLabels sampleEnv (deployPipeline []) (some callerCtx) = (.ok [], []) :=
  ⟨rfl,
    (stepLabels_reads_own_bodies sampleEnv (deployPipeline [buildRaw, pushRaw])
      (some callerCtx)).2.2.2.2 (deployPipeline [buildRescoped, pushRaw]) rfl rfl,
    ((stepLabels_reads_own_bodies sampleEnv (deployPipeline [buildRaw, badRaw, pushRaw])
      (some callerCtx)).2.2.1 [buildRaw] badRaw [pushRaw] ⟨"labels"⟩ rfl
        (by intro x hx; simp at hx; subst hx; exact ⟨_, rfl⟩) rfl).1,
    (stepLabels_reads_own_bodies sampleEnv (deployPipeline []) (some callerCtx)).1 rfl⟩

/-! ## Scope resolution as the spec describes it -/

theorem firstScoped_some_of_exists {hit : scopedStage → Bool} {xs : List scopedStage}
    (h : ∃ s ∈ xs, hit s = true) : ∃ s, firstScoped hit xs = some s := by
  induction xs with
  | nil => obtain ⟨s, hs, _⟩ := h; cases hs
  | cons x rest ih =>
    by_cases hx : hit x = true
    · exact ⟨x, by simp [firstScoped, hx]⟩
    · obtain ⟨s, hs, hhit⟩ := h
      rcases List.mem_cons.mp hs with rfl | hs
      · exact absurd hhit hx
      · obtain ⟨t, ht⟩ := ih ⟨s, hs, hhit⟩
        exact ⟨t, by simp [firstScoped, hx, ht]⟩

theorem firstScoped_some {hit : scopedStage → Bool} {xs : List scopedStage}
    {s : scopedStage} (h : firstScoped hit xs = some s) : s ∈ xs ∧ hit s = true := by
  induction xs with
  | nil => simp [firstScoped] at h
  | cons x rest ih =>
    by_cases hx : hit x = true
    · simp only [firstScoped, hx, if_true, Option.some.injEq] at h
      subst h
      exact ⟨List.mem_cons_self _ _, hx⟩
    · simp only [firstScoped, hx] at h
      exact ⟨List.mem_cons_of_mem _ (ih h).1, (ih h).2⟩

/-- C10: under scope resolution as spec 4.2 describes it, when the context
yields an active workspace and an active label set, some workspace-scoped entry
names that workspace and some label-scoped entry has a satisfied selector, the
resolution returns one override and it is a workspace-scoped one: the first
entry of the workspace rule set whose name is the active workspace.  The result
is a function of the context and the two rule sets alone.  With that resolution
plugged in, `Pipeline.StepsUse` reports that override's `Use.Type` for such a
raw step and `Pipeline.Step` decodes that override's body. -/
theorem scope_prefers_workspace_override (o : ScopeOracle) (ctx : Option EvalContext)
    (ws ls : List scopedStage) (w : String) (active : List (String × String))
    (hw : o.activeWorkspace ctx = .ok w) (hl : o.activeLabels ctx = .ok active)
    (hws : ∃ s ∈ ws, s.Scope = w)
    (_hls : ∃ s ∈ ls, o.selectorMatches s.Scope active = true) :
    ∃ ow, scopeMatchStage o ctx ws ls = .ok (some ow) ∧
      ow ∈ ws ∧ ow.Scope = w ∧
      firstScoped (fun s => s.Scope == w) ws = some ow ∧
      (∀ (env : Externals) (c : Pipeline) (u : Use) (b : HclBody),
        c.StepRaw = [⟨u, b, ws, ls⟩] →
        (Pipeline.StepsUse (env.withScope o) c ctx).1 = .ok [ow.Use.Type_]) ∧
      (∀ (env : Externals) (c : Pipeline) (ctx0 : Option EvalContext) (u : Use) (b : HclBody),
        c.StepRaw = [⟨u, b, ws, ls⟩] → appendContext c.ctx ctx0 = ctx →
        (Pipeline.Step (env.withScope o) c ctx0).2
          = [Call.scopeMatchStage ctx ws ls,
             Call.DecodeBody ow.Body (env.finalizeContext ctx)]) := by
  obtain ⟨ow, how⟩ : ∃ s, firstScoped (fun s => s.Scope == w) ws = some s := by
    apply firstScoped_some_of_exists
    obtain ⟨s, hs, hsw⟩ := hws
    exact ⟨s, hs, by simp [hsw]⟩
  have hres : scopeMatchStage o ctx ws ls = .ok (some ow) := by
    simp only [scopeMatchStage, hw, hl, how]
  have hmem := firstScoped_some how
  refine ⟨ow, hres, hmem.1, by simpa using hmem.2, how, ?_, ?_⟩
  · intro env c u b hc
    simp only [Pipeline.StepsUse, hc, List.length_singleton, one_ne_zero, if_false,
      Pipeline.stepsUseLoop, Externals.withScope, hres, effectiveUse, List.nil_append]
  · intro env c ctx0 u b hc hctx
    simp only [Pipeline.Step, hc, hctx, Pipeline.stepLoop, Externals.withScope, hres,
      effectiveBody]
    cases env.decodeStep ow.Body (env.finalizeContext ctx) <;> rfl

theorem scope_prefers_workspace_override_witness :
    sampleOracle.activeWorkspace (some baseCtx) = .ok "prod" ∧
    sampleOracle.activeLabels (some baseCtx) = .ok [("env", "prod")] ∧
    (∃ s ∈ bothRaw.WorkspaceScoped, s.Scope = "prod") ∧
    (∃ s ∈ bothRaw.LabelScoped,
      sampleOracle.selectorMatches s.Scope [("env", "prod")] = true) ∧
    (∃ ow, scopeMatchStage sampleOracle (some baseCtx) bothRaw.WorkspaceScoped
        bothRaw.LabelScoped = .ok (some ow) ∧ ow ∈ bothRaw.WorkspaceScoped) ∧
    scopeMatchStage sampleOracle (some baseCtx) bothRaw.WorkspaceScoped bothRaw.LabelScoped
      = .ok (some ⟨"prod", ⟨"docker-ws"⟩, ⟨"ws-prod-img"⟩⟩) := by
  have h1 : ∃ s ∈ bothRaw.WorkspaceScoped, s.Scope = "prod" :=
    ⟨⟨"prod", ⟨"docker-ws"⟩, ⟨"ws-prod-img"⟩⟩, by simp [bothRaw], rfl⟩
  have h2 : ∃ s ∈ bothRaw.LabelScoped,
      sampleOracle.selectorMatches s.Scope [("env", "prod")] = true :=
    ⟨⟨"env=prod", ⟨"docker-label"⟩, ⟨"label-prod-img"⟩⟩, by simp [bothRaw], by decide⟩
  refine ⟨rfl, rfl, h1, h2, ?_, rfl⟩
  obtain ⟨ow, hres, hmem, _⟩ :=
    scope_prefers_workspace_override sampleOracle (some baseCtx) bothRaw.WorkspaceScoped
      bothRaw.LabelScoped "prod" [("env", "prod")] rfl rfl h1 h2
  exact ⟨ow, hres, hmem⟩

end Waypoint
